import Mathlib

/-!
Verification of the transcript-to-MCQ quiz engine (`app.py`).

Python strings are modelled as `List Char` (a Python `str` is a sequence of
code points).  Python's `str.strip`, `str.split`, slicing and `startswith`
are embedded as explicit list functions below; dictionary accesses that can
raise (`KeyError`, `IndexError`, `ZeroDivisionError`) are modelled with
`Except PyError`.
-/

/-- Python strings as lists of characters. -/
abbrev PyStr := List Char

/-- The default whitespace set stripped by Python's `str.strip()`
(ASCII part: space, tab, newline, vertical tab, form feed, carriage return). -/
def pyWS (c : Char) : Bool :=
  c = ' ' || c = '\t' || c = '\n' || c = '\x0b' || c = '\x0c' || c = '\r'

/-- Remove trailing whitespace, as the right half of Python's `str.strip()`. -/
def dropTrailingWS (l : PyStr) : PyStr :=
  (l.reverse.dropWhile pyWS).reverse

/-- Python's `str.strip()`: drop leading and trailing whitespace. -/
def pyStrip (l : PyStr) : PyStr :=
  dropTrailingWS (l.dropWhile pyWS)

/-- Python's `str.split(sep)` specialised to the two-character separator
`") "` used by the scoring code (`opt.split(') ')`): non-overlapping,
left-to-right. -/
def splitParen : PyStr → List PyStr
  | [] => [[]]
  | [c] => [[c]]
  | c1 :: c2 :: rest =>
    if c1 = ')' ∧ c2 = ' ' then
      [] :: splitParen rest
    else
      match splitParen (c2 :: rest) with
      | [] => [[c1]]
      | p :: ps => (c1 :: p) :: ps

/-- The chunking of `translate_text`:
`[text[i:i+size] for i in range(0, len(text), size)]`.
The slice start indices are `range(0, len(text), size)`, i.e.
`List.range' 0 ⌈len/size⌉ size`, and `text[i:i+size]` is
`(l.drop i).take size`.  Empty for `size = 0` (where the Python `range`
would reject the step). -/
def splitChunks (size : Nat) (l : PyStr) : List PyStr :=
  (List.range' 0 ((l.length + size - 1) / size) size).map
    (fun i => (l.drop i).take size)

/-- Equality of embedded fallible results is decidable. -/
instance {ε α : Type} [DecidableEq ε] [DecidableEq α] : DecidableEq (Except ε α) :=
  fun a b =>
  match a, b with
  | Except.error e1, Except.error e2 => decidable_of_iff (e1 = e2) (by simp)
  | Except.error _, Except.ok _ => Decidable.isFalse (by simp)
  | Except.ok _, Except.error _ => Decidable.isFalse (by simp)
  | Except.ok a1, Except.ok a2 => decidable_of_iff (a1 = a2) (by simp)

/-- The body of `translate_text`: split into chunks of 500, translate each via
the external collaborator `tr`, join with a single space. -/
def translate_text (tr : PyStr → PyStr) (text : PyStr) : PyStr :=
  List.intercalate [' '] ((splitChunks 500 text).map tr)

/-- The number of collaborator invocations made by `translate_text`: one per
chunk. -/
def translationCalls (text : PyStr) : Nat :=
  (splitChunks 500 text).length

/-- The `current_question` dictionary of `parse_mcqs`: keys `question`,
`options`, `correct_answer`, each possibly absent.  Keys are only ever added
by the parser, never removed. -/
structure MCQDict where
  question : Option PyStr := none
  options : Option (List PyStr) := none
  correct_answer : Option PyStr := none
deriving DecidableEq, Repr

/-- Python truthiness of the `current_question` dict: non-empty, i.e. at
least one key present. -/
def MCQDict.truthy (d : MCQDict) : Bool :=
  d.question.isSome || d.options.isSome || d.correct_answer.isSome

/-- Runtime errors the embedded code can raise. -/
inductive PyError where
  | keyError
  | indexError
  | zeroDivisionError
deriving DecidableEq, Repr

/-- Test for `line.startswith('Q:')`. -/
def isQLine (l : PyStr) : Bool := List.isPrefixOf "Q:".data l

/-- Test for `line.startswith(('A)', 'B)', 'C)', 'D)'))`. -/
def isOptionLine (l : PyStr) : Bool :=
  List.isPrefixOf "A)".data l || List.isPrefixOf "B)".data l ||
  List.isPrefixOf "C)".data l || List.isPrefixOf "D)".data l

/-- Test for `line.startswith('Correct Answer:')`. -/
def isCALine (l : PyStr) : Bool := List.isPrefixOf "Correct Answer:".data l

/-- One iteration of the `for line in mcqs_text.split('\n')` loop of
`parse_mcqs`, over the state `(questions, current_question)`. -/
def parseLine (st : List MCQDict × MCQDict) (rawLine : PyStr) :
    Except PyError (List MCQDict × MCQDict) :=
  let line := pyStrip rawLine
  let qs := st.1
  let cq := st.2
  if isQLine line then
    Except.ok ((if cq.truthy then qs ++ [cq] else qs),
      { question := some (pyStrip (line.drop 2)), options := some [],
        correct_answer := none })
  else if isOptionLine line then
    match cq.options with
    | none => Except.error PyError.keyError
    | some opts => Except.ok (qs, { cq with options := some (opts ++ [line]) })
  else if isCALine line then
    match (line.splitOn ':').get? 1 with
    | none => Except.error PyError.indexError
    | some field => Except.ok (qs, { cq with correct_answer := some (pyStrip field) })
  else
    Except.ok (qs, cq)

/-- The loop of `parse_mcqs` over all lines. -/
def parseLinesAux (st : List MCQDict × MCQDict) :
    List PyStr → Except PyError (List MCQDict × MCQDict)
  | [] => Except.ok st
  | l :: ls =>
    match parseLine st l with
    | Except.error e => Except.error e
    | Except.ok st2 => parseLinesAux st2 ls

/-- The end-of-input step of `parse_mcqs`: `if current_question:
questions.append(current_question)`. -/
def finalizeParse (st : List MCQDict × MCQDict) : List MCQDict :=
  if st.2.truthy then st.1 ++ [st.2] else st.1

/-- `parse_mcqs(mcqs_text)` from `app.py`. -/
def parse_mcqs (text : PyStr) : Except PyError (List MCQDict) :=
  match parseLinesAux ([], {}) (text.splitOn '\n') with
  | Except.error e => Except.error e
  | Except.ok st => Except.ok (finalizeParse st)

/-- Per-question feedback printed by the scoring block of `display_mcqs`. -/
inductive Outcome where
  | correct
  | wrong
  | unanswered
  | itemError
deriving DecidableEq, Repr

/-- Python truthiness of a stored answer: `st.radio` yields `None` when
nothing is selected, the initial store is `''`; both are falsy. -/
def answerTruthy : Option PyStr → Bool
  | none => false
  | some s => !s.isEmpty

/-- One iteration of the scoring loop of `display_mcqs` for question `q`
with the stored answer `selected`: resolve the correct option by prefix
scan, extract its display text with `split(') ')[1]`, and compare. -/
def scoreQuestion (q : MCQDict) (selected : Option PyStr) : Except PyError Outcome :=
  match q.correct_answer with
  | none => Except.error PyError.keyError
  | some correct_option =>
    match q.options with
    | none => Except.error PyError.keyError
    | some opts =>
      match opts.find? (fun opt => List.isPrefixOf correct_option opt) with
      | none => Except.ok Outcome.itemError
      | some optLine =>
        match (splitParen optLine).get? 1 with
        | none => Except.error PyError.indexError
        | some disp =>
          if answerTruthy selected then
            if selected = some disp then Except.ok Outcome.correct
            else Except.ok Outcome.wrong
          else Except.ok Outcome.unanswered

/-- The scoring loop over all questions, reading `answers[i]` in step. -/
def scoreOutcomes : List MCQDict → List (Option PyStr) → Except PyError (List Outcome)
  | [], _ => Except.ok []
  | _ :: _, [] => Except.error PyError.indexError
  | q :: qs, a :: ans =>
    match scoreQuestion q a with
    | Except.error e => Except.error e
    | Except.ok o =>
      match scoreOutcomes qs ans with
      | Except.error e => Except.error e
      | Except.ok os => Except.ok (o :: os)

/-- The final score line of `display_mcqs`. -/
structure ScoreResult where
  outcomes : List Outcome
  correct_count : Nat
  total_questions : Nat
  percentage : ℚ
deriving DecidableEq, Repr

/-- The whole scoring block of `display_mcqs`: per-question outcomes,
`correct_count`, `total_questions = len(questions)`, and
`score_percentage = (correct_count / total_questions) * 100`
(a `ZeroDivisionError` when there are no questions). -/
def score (qs : List MCQDict) (answers : List (Option PyStr)) :
    Except PyError ScoreResult :=
  match scoreOutcomes qs answers with
  | Except.error e => Except.error e
  | Except.ok outcomes =>
    if qs.length = 0 then Except.error PyError.zeroDivisionError
    else
      Except.ok ⟨outcomes, outcomes.count Outcome.correct, qs.length,
        ((outcomes.count Outcome.correct : ℚ) / (qs.length : ℚ)) * 100⟩

/-- The per-run quiz state held in `st.session_state`. -/
structure QuizState where
  questions : List MCQDict
  answers : List (Option PyStr)
  submitted : Bool
deriving DecidableEq, Repr

/-- Recording a selection: `st.session_state['answers'][i] = answer`, which
`display_mcqs` performs for the rendered radio widget regardless of the
`submitted` flag; out-of-range assignment raises `IndexError`. -/
def select_answer (s : QuizState) (i : Nat) (choice : Option PyStr) :
    Except PyError QuizState :=
  if i < s.answers.length then
    Except.ok { s with answers := s.answers.set i choice }
  else Except.error PyError.indexError

/-- The submit button handler: `st.session_state['submitted'] = True`. -/
def submit (s : QuizState) : QuizState := { s with submitted := true }

/-- The guard around the scoring block: it runs only
`if st.session_state['submitted']`; `none` means the block is skipped. -/
def runScoring (s : QuizState) : Option (Except PyError ScoreResult) :=
  if s.submitted then some (score s.questions s.answers) else none

/-- Session construction after generation (`questions = parse_mcqs(...)`,
`answers = [''] * len(questions)`, `submitted = False`). -/
def setup_session (mcqs_text : PyStr) : Except PyError QuizState :=
  match parse_mcqs mcqs_text with
  | Except.error e => Except.error e
  | Except.ok qs => Except.ok ⟨qs, List.replicate qs.length (some []), false⟩

/-- The display guard `if st.session_state['questions']:` — an empty
question list is falsy and the quiz is never rendered. -/
def displayGuard (s : QuizState) : Bool := !s.questions.isEmpty

/-- A known question used to produce grammar-conforming generator output:
a question text, full option lines (marker included), and a correct label. -/
structure SourceQuestion where
  text : PyStr
  optionLines : List PyStr
  label : PyStr
deriving DecidableEq, Repr

/-- The lines of one question block, per the prompt grammar of
`generate_mcqs`. -/
def formatQuestion (q : SourceQuestion) : List PyStr :=
  ("Q: ".data ++ q.text) :: q.optionLines ++ ["Correct Answer: ".data ++ q.label]

/-- Grammar-conforming generator output for a list of known questions. -/
def formatQuestions (qs : List SourceQuestion) : PyStr :=
  List.intercalate ['\n'] ((qs.map formatQuestion).flatten)

/-- The parse result a known question should reproduce byte-for-byte. -/
def SourceQuestion.toDict (q : SourceQuestion) : MCQDict :=
  ⟨some q.text, some q.optionLines, some q.label⟩

/-- The four fixed option markers. -/
def optionMarkers : List PyStr := ["A)".data, "B)".data, "C)".data, "D)".data]

/-- A well-formed option line: strip-stable, single-line, starting with one
of the four markers.  Its position in the list is its input order. -/
def WFLine (l : PyStr) : Prop :=
  pyStrip l = l ∧ '\n' ∉ l ∧ ∃ m ∈ optionMarkers, List.isPrefixOf m l

/-- A well-formed known question: all fields strip-stable and single-line,
exactly four option lines, and a colon-free label. -/
def WellFormed (q : SourceQuestion) : Prop :=
  pyStrip q.text = q.text ∧ '\n' ∉ q.text ∧
  q.optionLines.length = 4 ∧ (∀ opt ∈ q.optionLines, WFLine opt) ∧
  pyStrip q.label = q.label ∧ '\n' ∉ q.label ∧ ':' ∉ q.label

instance (l : PyStr) : Decidable (WFLine l) := by
  unfold WFLine
  infer_instance

instance (q : SourceQuestion) : Decidable (WellFormed q) := by
  unfold WellFormed
  infer_instance

/-- The precondition of claim C10 on a list of (raw) lines: every
option-marker line is preceded by some `Q:` line. -/
def safeLines : List PyStr → Bool
  | [] => true
  | l :: ls =>
    if isQLine (pyStrip l) then true
    else !isOptionLine (pyStrip l) && safeLines ls


/-! ## General lemmas about the embedded string operations -/

/-- Any list is a `isPrefixOf`-prefix of itself followed by anything. -/
theorem isPrefixOf_append_self (l t : PyStr) : List.isPrefixOf l (l ++ t) = true := by
  induction l with
  | nil => cases t <;> rfl
  | cons c cs ih => simp [List.isPrefixOf, ih]

/-! ## Claim C9: empty-input translation -/

/-- C9 (confirmed): translating the empty string returns the empty string
and makes zero calls to the external translation collaborator, whatever
collaborator is supplied. -/
theorem C9_translate_empty (tr : PyStr → PyStr) :
    translate_text tr [] = [] ∧ translationCalls [] = 0 :=
  ⟨rfl, rfl⟩

/-! ## Claim C1: scoring of a concrete three-question session -/

/-- Generator output for the three-question session of claim C1. -/
def C1text : PyStr :=
  ("Q: q1\nA) apple\nB) banana\nC) cherry\nD) damson\nCorrect Answer: A\n" ++
   "Q: q2\nA) ant\nB) bee\nC) cow\nD) dog\nCorrect Answer: B\n" ++
   "Q: q3\nA) one\nB) two\nC) three\nD) four\nCorrect Answer: C").data

/-- The session state reached from `C1text` after selecting the correct
display text for question 1, a wrong one for question 2 and nothing for
question 3. -/
def C1state : QuizState :=
  ⟨[⟨some "q1".data,
      some ["A) apple".data, "B) banana".data, "C) cherry".data, "D) damson".data],
      some "A".data⟩,
    ⟨some "q2".data,
      some ["A) ant".data, "B) bee".data, "C) cow".data, "D) dog".data],
      some "B".data⟩,
    ⟨some "q3".data,
      some ["A) one".data, "B) two".data, "C) three".data, "D) four".data],
      some "C".data⟩],
   [some "apple".data, some "ant".data, none], false⟩

/-- C1 (confirmed): with question 1 answered by its correct option's display
text, question 2 answered by a wrong display text and question 3 left
unanswered, submission and scoring yield `correct_count = 1`,
`total_questions = 3`, `percentage = 100/3`, and per-question outcomes
exactly one `correct`, one `wrong`, one `unanswered`; the correct option is
resolved by prefix scan on `correct_answer` and compared by exact equality
of display texts. -/
theorem C1_scoring :
    (do
      let s0 ← setup_session C1text
      let s1 ← select_answer s0 0 (some "apple".data)
      let s2 ← select_answer s1 1 (some "ant".data)
      select_answer s2 2 none) = Except.ok C1state ∧
    runScoring (submit C1state) =
      some (Except.ok
        ⟨[Outcome.correct, Outcome.wrong, Outcome.unanswered], 1, 3, 100 / 3⟩) := by
  constructor
  · decide
  · have hsub : submit C1state = ⟨C1state.questions, C1state.answers, true⟩ := by decide
    have hout : scoreOutcomes C1state.questions C1state.answers =
        Except.ok [Outcome.correct, Outcome.wrong, Outcome.unanswered] := by decide
    have hlen : C1state.questions.length = 3 := by decide
    have hcount : List.count Outcome.correct
        [Outcome.correct, Outcome.wrong, Outcome.unanswered] = 1 := by decide
    rw [hsub]
    simp only [runScoring, score, hout, hlen, hcount]
    norm_num

/-! ## Claim C2: the Q-line transition -/

/-- C2 (corrected) counterexample: parsing two bare `Q:` lines appends the
first question at the second `Q:` transition even though it never
accumulated a correct-label (its `correct_answer` is `none`), refuting the
claim that finalization happens only once a correct-label is present. -/
theorem C2_counterexample :
    parse_mcqs "Q: one\nQ: two".data =
      Except.ok [⟨some "one".data, some [], none⟩,
        ⟨some "two".data, some [], none⟩] := by
  decide

/-- C2 (amended): on a `Q:`-prefixed (stripped) line the in-progress
question is finalized and appended exactly when the accumulator dictionary
is non-empty (truthy) — whether or not a correct-label was accumulated —
and the new in-progress question holds the trimmed remainder of the line,
an empty option list and no correct-label. -/
theorem C2_amended_qline (qs : List MCQDict) (cq : MCQDict) (rawLine : PyStr)
    (h : isQLine (pyStrip rawLine) = true) :
    parseLine (qs, cq) rawLine =
      Except.ok ((if cq.truthy then qs ++ [cq] else qs),
        ⟨some (pyStrip ((pyStrip rawLine).drop 2)), some [], none⟩) := by
  simp only [parseLine, h, if_true]

theorem C2_witness :
    parseLine ([], (⟨none, none, some "A".data⟩ : MCQDict)) "Q: next".data =
      Except.ok ([⟨none, none, some "A".data⟩],
        ⟨some "next".data, some [], none⟩) := by
  have h := C2_amended_qline [] ⟨none, none, some "A".data⟩ "Q: next".data (by decide)
  rw [h]; decide

/-! ## Claim C3: behaviour on zero parsed questions -/

/-- C3 (corrected) counterexample: generation text with no `Q:` line parses
to zero questions, yet the run does not fail — no `EmptyResultError` exists
in the code; a degenerate zero-question session is stored and the quiz
display is merely skipped by the falsy-list guard. -/
theorem C3_counterexample :
    setup_session "just prose".data = Except.ok ⟨[], [], false⟩ ∧
    displayGuard ⟨[], [], false⟩ = false := by
  decide

/-- C3 (amended): whenever parsing yields zero questions the pipeline
succeeds with a zero-question session (empty questions and answers, not
submitted) — no error is raised — and the display guard skips the quiz. -/
theorem C3_amended (text : PyStr) (h : parse_mcqs text = Except.ok []) :
    setup_session text = Except.ok ⟨[], [], false⟩ ∧
    displayGuard ⟨[], [], false⟩ = false := by
  refine ⟨?_, rfl⟩
  simp [setup_session, h]

theorem C3_witness :
    setup_session "no mcq lines at all".data = Except.ok ⟨[], [], false⟩ ∧
    displayGuard ⟨[], [], false⟩ = false :=
  C3_amended "no mcq lines at all".data (by decide)

/-! ## Claim C4: state guards around submission -/

/-- A submitted one-question session used to expose claim C4. -/
def C4state : QuizState :=
  ⟨[⟨some "q".data, some ["A) x".data], some "A".data⟩], [some "x".data], true⟩

/-- C4 (corrected) counterexample: on a submitted session `select_answer`
succeeds and overwrites the stored record — it does not fail and the
records do not stay unchanged — and on an unsubmitted session the scoring
block is simply skipped (`none` — nothing runs), not a failure; no
`InvalidStateTransition` exists in the code. -/
theorem C4_counterexample :
    select_answer C4state 0 (some "y".data) =
      Except.ok ⟨C4state.questions, [some "y".data], true⟩ ∧
    runScoring ⟨C4state.questions, C4state.answers, false⟩ = none := by
  decide

/-- C4 (amended): after submission `select_answer` still succeeds for any
in-range index and overwrites that record, and before submission the
scoring block is not executed and produces nothing; neither direction
raises any error. -/
theorem C4_amended (s t : QuizState) (i : Nat) (c : Option PyStr)
    (_hs : s.submitted = true) (hi : i < s.answers.length)
    (ht : t.submitted = false) :
    select_answer s i c = Except.ok { s with answers := s.answers.set i c } ∧
    runScoring t = none := by
  constructor
  · simp [select_answer, hi]
  · simp [runScoring, ht]

theorem C4_witness :
    select_answer C4state 0 (some "y".data) =
      Except.ok { C4state with answers := C4state.answers.set 0 (some "y".data) } ∧
    runScoring ⟨C4state.questions, C4state.answers, false⟩ = none :=
  C4_amended C4state ⟨C4state.questions, C4state.answers, false⟩ 0 (some "y".data)
    rfl (by decide) rfl

/-! ## Claim C8: end-of-input leniency -/

/-- C8 (confirmed): whenever the line loop ends with a truthy in-progress
question — e.g. a trailing question with options but no correct-answer
line — `parse_mcqs` appends it to the output rather than dropping it,
whatever fields it may be missing. -/
theorem C8_trailing_append (text : PyStr) (qs : List MCQDict) (cq : MCQDict)
    (h : parseLinesAux ([], {}) (text.splitOn '\n') = Except.ok (qs, cq))
    (ht : cq.truthy = true) :
    parse_mcqs text = Except.ok (qs ++ [cq]) := by
  simp [parse_mcqs, h, finalizeParse, ht]

theorem C8_witness :
    parse_mcqs "Q: q\nA) a\nB) b".data =
      Except.ok ([] ++ [⟨some "q".data, some ["A) a".data, "B) b".data], none⟩]) :=
  C8_trailing_append "Q: q\nA) a\nB) b".data []
    ⟨some "q".data, some ["A) a".data, "B) b".data], none⟩ (by decide) (by decide)

/-! ## Claim C7: correct-label extraction -/

/-- C7 (corrected) counterexample: with the line
`Correct Answer: A: note` the code stores the trimmed text between the
first and second colons (`A`) — `line.split(':')[1]` — not all the text
after the first colon (`A: note`) as the claim states. -/
theorem C7_counterexample :
    parse_mcqs "Q: q\nA) x\nCorrect Answer: A: note".data =
      Except.ok [⟨some "q".data, some ["A) x".data], some "A".data⟩] ∧
    ("A".data : PyStr) ≠ "A: note".data := by
  decide

/-- C7 (amended): for a line whose stripped form is `Correct Answer:`
followed by colon-free text `a`, a further colon and arbitrary text `b`,
the parser sets `correct_answer` to the trimmed `a` — the field between the
first and second colons — discarding everything from the second colon on. -/
theorem C7_amended (qs : List MCQDict) (cq : MCQDict) (rawLine a b : PyStr)
    (hline : pyStrip rawLine = "Correct Answer:".data ++ a ++ ':' :: b)
    (ha : ':' ∉ a) :
    parseLine (qs, cq) rawLine =
      Except.ok (qs, { cq with correct_answer := some (pyStrip a) }) := by
  have hq : isQLine ("Correct Answer:".data ++ a ++ ':' :: b) = false := rfl
  have ho : isOptionLine ("Correct Answer:".data ++ a ++ ':' :: b) = false := rfl
  have hc : isCALine ("Correct Answer:".data ++ a ++ ':' :: b) = true :=
    isPrefixOf_append_self "Correct Answer:".data (a ++ ':' :: b)
  have h1 : ("Correct Answer:".data ++ a ++ ':' :: b) =
      "Correct Answer".data ++ ':' :: (a ++ ':' :: b) := by simp
  have ha' : ∀ x ∈ a, ¬((x == ':') = true) := by
    intro x hx hbeq
    exact ha (eq_of_beq hbeq ▸ hx)
  have hsplit : ("Correct Answer:".data ++ a ++ ':' :: b).splitOn ':' =
      "Correct Answer".data :: a :: (b.splitOn ':') := by
    rw [h1, List.splitOn,
      List.splitOnP_first _ _ (by decide) ':' (by decide),
      List.splitOnP_first _ _ ha' ':' (by decide)]
    rfl
  simp only [parseLine, hline, hq, ho, hc, hsplit, if_true, if_false,
    Bool.false_eq_true, List.get?_cons_succ, List.get?_cons_zero]

theorem C7_witness :
    parseLine ([], {}) "Correct Answer: A: extra".data =
      Except.ok ([], ⟨none, none, some "A".data⟩) :=
  (C7_amended [] {} "Correct Answer: A: extra".data " A".data " extra".data
    (by decide) (by decide)).trans (by decide)

/-! ## Claim C5: chunk split round-trip -/

/-- Chunking the empty text yields no chunks. -/
theorem splitChunks_nil (size : Nat) : splitChunks size [] = [] := by
  rcases Nat.eq_zero_or_pos size with h | h
  · subst h; rfl
  · have h1 : (size - 1) / size = 0 := Nat.div_eq_of_lt (by omega)
    simp [splitChunks, h1]

/-- For a positive chunk size and non-empty text, the chunk list is the
first slice followed by the chunks of the rest. -/
theorem splitChunks_cons (size : Nat) (l : PyStr) (hs : 0 < size) (hl : l ≠ []) :
    splitChunks size l = l.take size :: splitChunks size (l.drop size) := by
  have hn : 0 < l.length := List.length_pos.mpr hl
  have hcnt : (l.length + size - 1) / size = (l.length - 1) / size + 1 := by
    have h1 : l.length + size - 1 = (l.length - 1) + size := by omega
    rw [h1, Nat.add_div_right _ hs]
  have hcnt2 : ((l.drop size).length + size - 1) / size = (l.length - 1) / size := by
    rw [List.length_drop]
    rcases le_or_lt size l.length with h | h
    · have h1 : l.length - size + size - 1 = l.length - 1 := by omega
      rw [h1]
    · have h1 : l.length - size = 0 := by omega
      rw [h1, Nat.div_eq_of_lt (by omega), Nat.div_eq_of_lt (by omega)]
  have hfun : (fun j => (l.drop (size + j)).take size) =
      (fun j => ((l.drop size).drop j).take size) := by
    funext j
    rw [List.drop_drop, Nat.add_comm]
  calc splitChunks size l
      = (List.range' 0 ((l.length - 1) / size + 1) size).map
          (fun i => (l.drop i).take size) := by rw [splitChunks, hcnt]
    _ = (l.drop 0).take size :: (List.range' (0 + size) ((l.length - 1) / size) size).map
          (fun i => (l.drop i).take size) := by rw [List.range'_succ, List.map_cons]
    _ = l.take size :: ((List.range' 0 ((l.length - 1) / size) size).map (size + ·)).map
          (fun i => (l.drop i).take size) := by
          rw [List.drop_zero, List.map_add_range', Nat.add_zero, Nat.zero_add]
    _ = l.take size :: (List.range' 0 ((l.length - 1) / size) size).map
          (fun j => (l.drop (size + j)).take size) := by rw [List.map_map]; rfl
    _ = l.take size :: splitChunks size (l.drop size) := by
          rw [hfun, splitChunks, hcnt2]

/-- Bounded-length fuel version of the concatenation property. -/
theorem splitChunks_flatten_aux (size : Nat) (hs : 0 < size) :
    ∀ (n : Nat) (l : PyStr), l.length ≤ n → (splitChunks size l).flatten = l := by
  intro n
  induction n with
  | zero =>
    intro l hl
    have h : l = [] := List.eq_nil_of_length_eq_zero (Nat.le_zero.mp hl)
    subst h
    simp [splitChunks_nil]
  | succ n ih =>
    intro l hl
    by_cases h : l = []
    · subst h; simp [splitChunks_nil]
    · rw [splitChunks_cons size l hs h, List.flatten_cons,
        ih (l.drop size) ?_, List.take_append_drop]
      have := List.length_pos.mpr h
      rw [List.length_drop]
      omega

/-- Bounded-length fuel version of the chunk-length bound. -/
theorem splitChunks_le_aux (size : Nat) (hs : 0 < size) :
    ∀ (n : Nat) (l : PyStr), l.length ≤ n →
      ∀ c ∈ splitChunks size l, c.length ≤ size := by
  intro n
  induction n with
  | zero =>
    intro l hl c hc
    have h : l = [] := List.eq_nil_of_length_eq_zero (Nat.le_zero.mp hl)
    subst h
    simp [splitChunks_nil] at hc
  | succ n ih =>
    intro l hl c hc
    by_cases h : l = []
    · subst h; simp [splitChunks_nil] at hc
    · rw [splitChunks_cons size l hs h] at hc
      rcases List.mem_cons.mp hc with h1 | h1
      · subst h1
        simp [List.length_take]
      · refine ih (l.drop size) ?_ c h1
        have := List.length_pos.mpr h
        rw [List.length_drop]
        omega

/-- Bounded-length fuel version: every chunk but the last is full. -/
theorem splitChunks_full_aux (size : Nat) (hs : 0 < size) :
    ∀ (n : Nat) (l : PyStr), l.length ≤ n →
      ∀ i, i + 1 < (splitChunks size l).length →
        ((splitChunks size l).getD i []).length = size := by
  intro n
  induction n with
  | zero =>
    intro l hl i hi
    have h : l = [] := List.eq_nil_of_length_eq_zero (Nat.le_zero.mp hl)
    subst h
    simp [splitChunks_nil] at hi
  | succ n ih =>
    intro l hl i hi
    by_cases h : l = []
    · subst h; simp [splitChunks_nil] at hi
    · rw [splitChunks_cons size l hs h] at hi ⊢
      cases i with
      | zero =>
        simp only [List.getD_cons_zero, List.length_take]
        have hd : l.drop size ≠ [] := by
          intro hnil
          rw [hnil, splitChunks_nil] at hi
          simp at hi
        have : size < l.length := by
          have h1 : (l.drop size).length > 0 := List.length_pos.mpr hd
          rw [List.length_drop] at h1
          omega
        omega
      | succ j =>
        simp only [List.getD_cons_succ]
        refine ih (l.drop size) ?_ j ?_
        · have := List.length_pos.mpr h
          rw [List.length_drop]
          omega
        · simpa using hi

/-- C5 (confirmed): for every text and positive chunk size, the splitting
step of `translate_text` produces consecutive chunks each of length at most
the chunk size, all full except possibly the last, and concatenating them
in order reconstructs the text exactly (hence in original order, no
overlap, no gap). -/
theorem C5_chunk_roundtrip (t : PyStr) (s : Nat) (hs : 0 < s) :
    (∀ c ∈ splitChunks s t, c.length ≤ s) ∧
    (splitChunks s t).flatten = t ∧
    (∀ i, i + 1 < (splitChunks s t).length → ((splitChunks s t).getD i []).length = s) :=
  ⟨splitChunks_le_aux s hs t.length t le_rfl,
   splitChunks_flatten_aux s hs t.length t le_rfl,
   splitChunks_full_aux s hs t.length t le_rfl⟩

theorem C5_witness :
    (splitChunks 3 "abcdefg".data).flatten = "abcdefg".data :=
  (C5_chunk_roundtrip "abcdefg".data 3 (by decide)).2.1

/-! ## Claim C10: parser totality at the public interface -/

/-- A successful `isPrefixOf` test exhibits the list as marker plus rest. -/
theorem isPrefixOf_eq_append (p : PyStr) :
    ∀ l : PyStr, List.isPrefixOf p l = true → ∃ t, l = p ++ t := by
  induction p with
  | nil => exact fun l _ => ⟨l, rfl⟩
  | cons c cs ih =>
    intro l h
    cases l with
    | nil => simp [List.isPrefixOf] at h
    | cons d ds =>
      rw [List.isPrefixOf, Bool.and_eq_true] at h
      obtain ⟨h1, h2⟩ := h
      obtain ⟨t, ht⟩ := ih ds h2
      exact ⟨t, by rw [ht, List.cons_append, eq_of_beq h1]⟩

/-- Every `Correct Answer:` line has a field at index 1 of its colon-split,
so the `split(':')[1]` access never raises. -/
theorem caLine_field (line : PyStr) (h : isCALine line = true) :
    ∃ v, (line.splitOn ':')[1]? = some v := by
  obtain ⟨rest, hrest⟩ := isPrefixOf_eq_append "Correct Answer:".data line h
  subst hrest
  have h1 : ("Correct Answer:".data ++ rest) =
      "Correct Answer".data ++ ':' :: rest := by simp
  rw [h1, List.splitOn, List.splitOnP_first _ _ (by decide) ':' (by decide)]
  cases hsp : rest.splitOnP (· == ':') with
  | nil => exact absurd hsp (List.splitOnP_ne_nil _ rest)
  | cons v vs => exact ⟨v, by simp⟩

/-- Once the accumulator has an `options` key, one parsing step cannot
raise and the key persists. -/
theorem parseLine_ok_of_some (st : List MCQDict × MCQDict) (l : PyStr)
    (h : st.2.options.isSome = true) :
    ∃ st2, parseLine st l = Except.ok st2 ∧ st2.2.options.isSome = true := by
  by_cases hq : isQLine (pyStrip l)
  · refine ⟨((if st.2.truthy then st.1 ++ [st.2] else st.1),
      ⟨some (pyStrip ((pyStrip l).drop 2)), some [], none⟩), ?_, rfl⟩
    simp [parseLine, hq]
  · by_cases ho : isOptionLine (pyStrip l)
    · obtain ⟨opts, hopts⟩ := Option.isSome_iff_exists.mp h
      refine ⟨(st.1, { st.2 with options := some (opts ++ [pyStrip l]) }), ?_, rfl⟩
      simp [parseLine, hq, ho, hopts]
    · by_cases hc : isCALine (pyStrip l)
      · obtain ⟨v, hv⟩ := caLine_field _ hc
        refine ⟨(st.1, { st.2 with correct_answer := some (pyStrip v) }), ?_, h⟩
        simp [parseLine, hq, ho, hc, hv]
      · exact ⟨st, by simp [parseLine, hq, ho, hc], h⟩

/-- Once the accumulator has an `options` key, the rest of the line loop
cannot raise. -/
theorem parseLinesAux_ok_of_some :
    ∀ (ls : List PyStr) (st : List MCQDict × MCQDict), st.2.options.isSome = true →
      ∃ st', parseLinesAux st ls = Except.ok st' := by
  intro ls
  induction ls with
  | nil => exact fun st _ => ⟨st, rfl⟩
  | cons l ls ih =>
    intro st h
    obtain ⟨st2, h1, h2⟩ := parseLine_ok_of_some st l h
    obtain ⟨st', h3⟩ := ih st2 h2
    exact ⟨st', by simp [parseLinesAux, h1, h3]⟩

/-- Before the first `Q:` line, a line list in which no option-marker line
precedes a `Q:` line is processed without error. -/
theorem parseLinesAux_ok_of_safe :
    ∀ (ls : List PyStr) (st : List MCQDict × MCQDict), st.2.options = none →
      safeLines ls = true → ∃ st', parseLinesAux st ls = Except.ok st' := by
  intro ls
  induction ls with
  | nil => exact fun st _ _ => ⟨st, rfl⟩
  | cons l ls ih =>
    intro st hnone hsafe
    by_cases hq : isQLine (pyStrip l)
    · have h1 : parseLine st l =
          Except.ok ((if st.2.truthy then st.1 ++ [st.2] else st.1),
            ⟨some (pyStrip ((pyStrip l).drop 2)), some [], none⟩) := by
        simp [parseLine, hq]
      obtain ⟨st', h2⟩ := parseLinesAux_ok_of_some ls
        ((if st.2.truthy then st.1 ++ [st.2] else st.1),
          ⟨some (pyStrip ((pyStrip l).drop 2)), some [], none⟩) rfl
      exact ⟨st', by simp [parseLinesAux, h1, h2]⟩
    · have hsafe' : (!isOptionLine (pyStrip l) && safeLines ls) = true := by
        simpa [safeLines, hq] using hsafe
      rw [Bool.and_eq_true] at hsafe'
      obtain ⟨ho, hrest⟩ := hsafe'
      have ho' : isOptionLine (pyStrip l) = false := by simpa using ho
      by_cases hc : isCALine (pyStrip l)
      · obtain ⟨v, hv⟩ := caLine_field _ hc
        have h1 : parseLine st l =
            Except.ok (st.1, { st.2 with correct_answer := some (pyStrip v) }) := by
          simp [parseLine, hq, ho', hc, hv]
        obtain ⟨st', h2⟩ := ih (st.1, { st.2 with correct_answer := some (pyStrip v) })
          (by simpa using hnone) hrest
        exact ⟨st', by simp [parseLinesAux, h1, h2]⟩
      · have h1 : parseLine st l = Except.ok (st.1, st.2) := by
          simp [parseLine, hq, ho', hc]
        obtain ⟨st', h2⟩ := ih (st.1, st.2) hnone hrest
        exact ⟨st', by simp [parseLinesAux, h1, h2]⟩

/-- C10 (confirmed): `parse_mcqs` is not total — an option-marker line
before any `Q:` line raises a `KeyError` (the accumulator has no `options`
key yet) — but under the precondition that no option-marker line precedes
the first `Q:` line, the error branch is unreachable and parsing returns
normally. -/
theorem C10_parse_totality :
    parse_mcqs "A) stray option".data = Except.error PyError.keyError ∧
    ∀ text : PyStr, safeLines (text.splitOn '\n') = true →
      ∃ out, parse_mcqs text = Except.ok out := by
  constructor
  · decide
  · intro text hsafe
    obtain ⟨st', h⟩ := parseLinesAux_ok_of_safe (text.splitOn '\n') ([], {}) rfl hsafe
    exact ⟨finalizeParse st', by simp [parse_mcqs, h]⟩

theorem C10_witness :
    ∃ out, parse_mcqs "Q: q\nA) x".data = Except.ok out :=
  C10_parse_totality.2 "Q: q\nA) x".data (by decide)

/-! ## Claim C6: parser round-trip on well-formed generator output -/

/-- Splitting `dropWhile` across an append. -/
theorem dropWhile_append (p : Char → Bool) (l₁ l₂ : PyStr) :
    (l₁ ++ l₂).dropWhile p =
      if (l₁.dropWhile p).isEmpty then l₂.dropWhile p else l₁.dropWhile p ++ l₂ := by
  induction l₁ with
  | nil => simp
  | cons c cs ih =>
    by_cases hc : p c
    · simp [List.dropWhile_cons, hc, ih]
    · simp [List.dropWhile_cons, hc]

/-- A non-whitespace head survives trailing-whitespace removal. -/
theorem dropTrailingWS_cons_nonws (c : Char) (l : PyStr) (hc : pyWS c = false) :
    dropTrailingWS (c :: l) = c :: dropTrailingWS l := by
  unfold dropTrailingWS
  rw [List.reverse_cons, dropWhile_append]
  by_cases h : (l.reverse.dropWhile pyWS).isEmpty = true
  · rw [if_pos h]
    rw [List.isEmpty_iff] at h
    rw [h]
    simp [List.dropWhile_cons, hc]
  · rw [if_neg h]
    simp

/-- Trailing-whitespace removal only looks at the end of the list. -/
theorem dropTrailingWS_append (l t : PyStr) (ht : dropTrailingWS t ≠ []) :
    dropTrailingWS (l ++ t) = l ++ dropTrailingWS t := by
  have h1 : t.reverse.dropWhile pyWS ≠ [] := by
    intro h
    apply ht
    unfold dropTrailingWS
    rw [h, List.reverse_nil]
  unfold dropTrailingWS
  rw [List.reverse_append, dropWhile_append,
    if_neg (by simpa [List.isEmpty_iff] using h1), List.reverse_append,
    List.reverse_reverse]

/-- Trailing-whitespace removal yields a prefix. -/
theorem dropTrailingWS_prefix (l : PyStr) : dropTrailingWS l <+: l := by
  have h := List.dropWhile_suffix (l := l.reverse) (p := pyWS)
  have h2 := List.reverse_prefix.mpr h
  simpa [dropTrailingWS] using h2

/-- A strip-stable string has no leading whitespace to drop. -/
theorem pyStrip_stable_dropWhile (t : PyStr) (h : pyStrip t = t) :
    t.dropWhile pyWS = t := by
  have hsuf : t.dropWhile pyWS <:+ t := List.dropWhile_suffix pyWS
  have hlen : t.length ≤ (t.dropWhile pyWS).length := by
    have hpre : pyStrip t <+: t.dropWhile pyWS := dropTrailingWS_prefix _
    calc t.length = (pyStrip t).length := by rw [h]
      _ ≤ (t.dropWhile pyWS).length := hpre.length_le
  exact hsuf.eq_of_length (le_antisymm hsuf.length_le hlen)

/-- A strip-stable string has no trailing whitespace to drop. -/
theorem pyStrip_stable_dropTrailing (t : PyStr) (h : pyStrip t = t) :
    dropTrailingWS t = t := by
  have h1 := pyStrip_stable_dropWhile t h
  calc dropTrailingWS t = pyStrip t := by rw [pyStrip, h1]
    _ = t := h

/-- A whitespace head is dropped by `dropWhile pyWS`. -/
theorem dropWhile_ws_cons (c : Char) (l : PyStr) (hc : pyWS c = true) :
    (c :: l).dropWhile pyWS = l.dropWhile pyWS := by
  simp [List.dropWhile_cons, hc]

/-- A whitespace head is dropped by `pyStrip`. -/
theorem pyStrip_ws_cons (c : Char) (l : PyStr) (hc : pyWS c = true) :
    pyStrip (c :: l) = pyStrip l := by
  unfold pyStrip
  rw [dropWhile_ws_cons c l hc]

/-- Strip-stability of the identity strip on the whole line built from a
non-whitespace head and a strip-stable, non-empty tail. -/
theorem pyStrip_cons_append (c : Char) (m t : PyStr) (hc : pyWS c = false)
    (ht : dropTrailingWS t ≠ []) :
    pyStrip ((c :: m) ++ t) = (c :: m) ++ dropTrailingWS t := by
  unfold pyStrip
  rw [List.cons_append, List.dropWhile_cons, if_neg (by simp [hc]),
    show c :: (m ++ t) = (c :: m) ++ t from rfl,
    dropTrailingWS_append _ _ ht]

/-- Processing a `Q: <text>` line for strip-stable text. -/
theorem parseLine_qline (qs : List MCQDict) (cq : MCQDict) (text : PyStr)
    (ht : pyStrip text = text) :
    parseLine (qs, cq) ("Q: ".data ++ text) =
      Except.ok ((if cq.truthy then qs ++ [cq] else qs),
        ⟨some text, some [], none⟩) := by
  by_cases h0 : text = []
  · subst h0
    simp only [List.append_nil]
    have hstr : pyStrip "Q: ".data = "Q:".data := by decide
    have hq2 : isQLine "Q:".data = true := by decide
    have hdrop2 : pyStrip (("Q:".data : PyStr).drop 2) = [] := by decide
    simp only [parseLine, hstr, hq2, if_true, hdrop2]
  · have hdt : dropTrailingWS text ≠ [] := by
      rw [pyStrip_stable_dropTrailing text ht]; exact h0
    have hline : pyStrip ("Q: ".data ++ text) = "Q: ".data ++ text := by
      have h2 := pyStrip_cons_append 'Q' [':', ' '] text (by decide) hdt
      rw [pyStrip_stable_dropTrailing text ht] at h2
      exact h2
    have hq : isQLine ("Q: ".data ++ text) = true := by
      have h3 : ("Q: ".data ++ text) = "Q:".data ++ (' ' :: text) := by simp
      rw [isQLine, h3]
      exact isPrefixOf_append_self _ _
    have hdrop : pyStrip (("Q: ".data ++ text).drop 2) = text := by
      show pyStrip (' ' :: text) = text
      rw [pyStrip_ws_cons ' ' text (by decide)]
      exact ht
    simp only [parseLine, hline, hq, if_true, hdrop]

/-- Processing an option line for a dict that already has an options key. -/
theorem parseLine_optionLine (qs : List MCQDict) (cq : MCQDict) (opt : PyStr)
    (h : WFLine opt) (opts : List PyStr) (hopts : cq.options = some opts) :
    parseLine (qs, cq) opt =
      Except.ok (qs, { cq with options := some (opts ++ [opt]) }) := by
  obtain ⟨hstrip, hnl, m, hm, hpre⟩ := h
  obtain ⟨rest, hrest⟩ := isPrefixOf_eq_append m opt hpre
  subst hrest
  simp only [optionMarkers, List.mem_cons, List.not_mem_nil, or_false] at hm
  rcases hm with rfl | rfl | rfl | rfl
  · have hq : isQLine ("A)".data ++ rest) = false := rfl
    have ho : isOptionLine ("A)".data ++ rest) = true := by
      rw [isOptionLine, isPrefixOf_append_self]
      rfl
    simp only [parseLine, hstrip, hq, ho, hopts, Bool.false_eq_true, if_false, if_true]
  · have hq : isQLine ("B)".data ++ rest) = false := rfl
    have ho : isOptionLine ("B)".data ++ rest) = true := by
      rw [isOptionLine, isPrefixOf_append_self]
      rfl
    simp only [parseLine, hstrip, hq, ho, hopts, Bool.false_eq_true, if_false, if_true]
  · have hq : isQLine ("C)".data ++ rest) = false := rfl
    have ho : isOptionLine ("C)".data ++ rest) = true := by
      rw [isOptionLine, isPrefixOf_append_self]
      rfl
    simp only [parseLine, hstrip, hq, ho, hopts, Bool.false_eq_true, if_false, if_true]
  · have hq : isQLine ("D)".data ++ rest) = false := rfl
    have ho : isOptionLine ("D)".data ++ rest) = true := by
      rw [isOptionLine, isPrefixOf_append_self]
      rfl
    simp only [parseLine, hstrip, hq, ho, hopts, Bool.false_eq_true, if_false, if_true]

/-- Processing a `Correct Answer: <label>` line for a strip-stable,
colon-free label. -/
theorem parseLine_caLine (qs : List MCQDict) (cq : MCQDict) (label : PyStr)
    (hstrip : pyStrip label = label) (hcol : ':' ∉ label) :
    parseLine (qs, cq) ("Correct Answer: ".data ++ label) =
      Except.ok (qs, { cq with correct_answer := some label }) := by
  by_cases h0 : label = []
  · subst h0
    simp only [List.append_nil]
    have hstr : pyStrip "Correct Answer: ".data = "Correct Answer:".data := by decide
    have hq2 : isQLine "Correct Answer:".data = false := by decide
    have ho2 : isOptionLine "Correct Answer:".data = false := by decide
    have hc2 : isCALine "Correct Answer:".data = true := by decide
    have hsp2 : (("Correct Answer:".data : PyStr).splitOn ':').get? 1 = some [] := by decide
    have hst2 : pyStrip ([] : PyStr) = [] := rfl
    simp only [parseLine, hstr, hq2, ho2, hc2, hsp2, hst2, Bool.false_eq_true,
      if_false, if_true]
  · have hdt : dropTrailingWS label ≠ [] := by
      rw [pyStrip_stable_dropTrailing label hstrip]; exact h0
    have hline : pyStrip ("Correct Answer: ".data ++ label) =
        "Correct Answer: ".data ++ label := by
      have h2 := pyStrip_cons_append 'C' "orrect Answer: ".data label (by decide) hdt
      rw [pyStrip_stable_dropTrailing label hstrip] at h2
      exact h2
    have hq : isQLine ("Correct Answer: ".data ++ label) = false := rfl
    have ho : isOptionLine ("Correct Answer: ".data ++ label) = false := rfl
    have hc : isCALine ("Correct Answer: ".data ++ label) = true := by
      have h4 : ("Correct Answer: ".data ++ label) =
          "Correct Answer:".data ++ (' ' :: label) := by simp
      rw [isCALine, h4]
      exact isPrefixOf_append_self _ _
    have hsplit : (("Correct Answer: ".data ++ label).splitOn ':').get? 1 =
        some (' ' :: label) := by
      have h5 : ("Correct Answer: ".data ++ label) =
          "Correct Answer".data ++ ':' :: (' ' :: label) := by simp
      rw [h5, List.splitOn, List.splitOnP_first _ _ (by decide) ':' (by decide)]
      have h6 : (' ' :: label).splitOnP (· == ':') = [' ' :: label] := by
        apply List.splitOnP_eq_single
        intro x hx hbeq
        have hx2 := eq_of_beq hbeq
        subst hx2
        rcases List.mem_cons.mp hx with h | h
        · exact absurd h (by decide)
        · exact hcol h
      rw [h6]
      rfl
    have hstrip2 : pyStrip (' ' :: label) = label := by
      rw [pyStrip_ws_cons ' ' label (by decide)]
      exact hstrip
    simp only [parseLine, hline, hq, ho, hc, hsplit, hstrip2, Bool.false_eq_true,
      if_false, if_true]

/-- One accepted parse step extends the remaining-line computation. -/
theorem parseLinesAux_cons_ok (st st2 : List MCQDict × MCQDict) (l : PyStr)
    (ls : List PyStr) (h : parseLine st l = Except.ok st2) :
    parseLinesAux st (l :: ls) = parseLinesAux st2 ls := by
  simp [parseLinesAux, h]

/-- Consuming a run of well-formed option lines accumulates them in input
order at the end of the options list. -/
theorem parseLines_options_loop :
    ∀ (opts : List PyStr), (∀ o ∈ opts, WFLine o) →
      ∀ (qs : List MCQDict) (q : Option PyStr) (done : List PyStr)
        (ca : Option PyStr) (rest : List PyStr),
      parseLinesAux (qs, ⟨q, some done, ca⟩) (opts ++ rest) =
        parseLinesAux (qs, ⟨q, some (done ++ opts), ca⟩) rest := by
  intro opts
  induction opts with
  | nil =>
    intro _ qs q done ca rest
    simp
  | cons o os ih =>
    intro hwf qs q done ca rest
    have h1 := parseLine_optionLine qs ⟨q, some done, ca⟩ o
      (hwf o (List.mem_cons_self o os)) done rfl
    calc parseLinesAux (qs, ⟨q, some done, ca⟩) ((o :: os) ++ rest)
        = parseLinesAux (qs, ⟨q, some (done ++ [o]), ca⟩) (os ++ rest) := by
          rw [List.cons_append]
          exact parseLinesAux_cons_ok _ _ _ _ h1
      _ = parseLinesAux (qs, ⟨q, some ((done ++ [o]) ++ os), ca⟩) rest :=
          ih (fun o2 ho2 => hwf o2 (List.mem_cons_of_mem _ ho2)) qs q (done ++ [o]) ca rest
      _ = parseLinesAux (qs, ⟨q, some (done ++ o :: os), ca⟩) rest := by
          rw [List.append_assoc]
          rfl

/-- Consuming one whole well-formed question block finalizes any truthy
in-progress question and leaves the block's dict in progress. -/
theorem parseLines_block (q : SourceQuestion) (hwf : WellFormed q)
    (qs : List MCQDict) (cq : MCQDict) (rest : List PyStr) :
    parseLinesAux (qs, cq) (formatQuestion q ++ rest) =
      parseLinesAux ((if cq.truthy then qs ++ [cq] else qs), q.toDict) rest := by
  obtain ⟨ht, hnl, hlen4, hopts, hl, hlnl, hlcol⟩ := hwf
  rw [formatQuestion]
  calc parseLinesAux (qs, cq)
        ((("Q: ".data ++ q.text) ::
          (q.optionLines ++ ["Correct Answer: ".data ++ q.label])) ++ rest)
      = parseLinesAux ((if cq.truthy then qs ++ [cq] else qs),
          ⟨some q.text, some [], none⟩)
          ((q.optionLines ++ ["Correct Answer: ".data ++ q.label]) ++ rest) := by
        rw [List.cons_append]
        exact parseLinesAux_cons_ok _ _ _ _ (parseLine_qline qs cq q.text ht)
    _ = parseLinesAux ((if cq.truthy then qs ++ [cq] else qs),
          ⟨some q.text, some q.optionLines, none⟩)
          (["Correct Answer: ".data ++ q.label] ++ rest) := by
        rw [List.append_assoc]
        exact parseLines_options_loop q.optionLines hopts _ (some q.text) [] none _
    _ = parseLinesAux ((if cq.truthy then qs ++ [cq] else qs),
          ⟨some q.text, some q.optionLines, some q.label⟩) rest := by
        exact parseLinesAux_cons_ok _ _ _ _
          (parseLine_caLine _ ⟨some q.text, some q.optionLines, none⟩ q.label hl hlcol)

/-- Folding whole blocks through the line loop, with the end-of-input
append applied at the close. -/
theorem parse_blocks :
    ∀ (qsrc : List SourceQuestion), (∀ q ∈ qsrc, WellFormed q) →
    ∀ (qs : List MCQDict) (cq : MCQDict),
      (parseLinesAux (qs, cq) ((qsrc.map formatQuestion).flatten)).map finalizeParse =
        Except.ok ((if cq.truthy then qs ++ [cq] else qs) ++
          qsrc.map SourceQuestion.toDict) := by
  intro qsrc
  induction qsrc with
  | nil =>
    intro _ qs cq
    simp [parseLinesAux, finalizeParse, Except.map]
  | cons q qsrc ih =>
    intro hwf qs cq
    rw [List.map_cons, List.flatten_cons,
      parseLines_block q (hwf q (List.mem_cons_self _ _)) qs cq,
      ih (fun r hr => hwf r (List.mem_cons_of_mem _ hr))]
    have htr : (SourceQuestion.toDict q).truthy = true := rfl
    rw [htr, if_pos rfl]
    simp [List.append_assoc]

/-- No line of a well-formed question block contains a newline. -/
theorem formatQuestion_no_newline (q : SourceQuestion) (h : WellFormed q) :
    ∀ l ∈ formatQuestion q, '\n' ∉ l := by
  obtain ⟨ht, hnl, hlen4, hopts, hl, hlnl, hlcol⟩ := h
  intro l hl2
  rw [formatQuestion] at hl2
  rcases List.mem_cons.mp hl2 with rfl | hl3
  · intro hmem
    rcases List.mem_append.mp hmem with hmm | hmm
    · exact absurd hmm (by decide)
    · exact hnl hmm
  · rcases List.mem_append.mp hl3 with hmm | hmm
    · exact (hopts l hmm).2.1
    · rw [List.mem_singleton] at hmm
      subst hmm
      intro hmem
      rcases List.mem_append.mp hmem with hmm | hmm
      · exact absurd hmm (by decide)
      · exact hlnl hmm

/-- C6 (confirmed): formatting any sequence of well-formed questions per
the prompt grammar and parsing the result returns exactly that many
questions, each with its text, its full option lines in input order (not
re-sorted by label) and its correct label reproduced byte-for-byte. -/
theorem C6_parse_roundtrip (qsrc : List SourceQuestion)
    (hwf : ∀ q ∈ qsrc, WellFormed q) :
    parse_mcqs (formatQuestions qsrc) = Except.ok (qsrc.map SourceQuestion.toDict) ∧
    (qsrc.map SourceQuestion.toDict).length = qsrc.length := by
  refine ⟨?_, by simp⟩
  cases qsrc with
  | nil => decide
  | cons q0 qtail =>
    have hsplit : (formatQuestions (q0 :: qtail)).splitOn '\n' =
        ((q0 :: qtail).map formatQuestion).flatten := by
      rw [formatQuestions]
      apply List.splitOn_intercalate
      · intro l hl
        rw [List.mem_flatten] at hl
        obtain ⟨block, hb, hlb⟩ := hl
        rw [List.mem_map] at hb
        obtain ⟨q, hq, rfl⟩ := hb
        exact formatQuestion_no_newline q (hwf q hq) l hlb
      · simp [formatQuestion]
    have h := parse_blocks (q0 :: qtail) hwf [] {}
    unfold parse_mcqs
    rw [hsplit]
    cases hp : parseLinesAux ([], {}) (((q0 :: qtail).map formatQuestion).flatten) with
    | error e =>
      rw [hp] at h
      simp [Except.map] at h
    | ok st =>
      rw [hp] at h
      simp only [Except.map] at h
      have h2 : finalizeParse st = (q0 :: qtail).map SourceQuestion.toDict := by
        have h3 := Except.ok.inj h
        simpa using h3
      show Except.ok (finalizeParse st) = _
      rw [h2]

/-- A two-question sample whose first question's option lines are not in
label order, to exercise order preservation. -/
def C6sample : List SourceQuestion :=
  [⟨"q1".data, ["B) beta".data, "A) alpha".data, "D) delta".data, "C) gamma".data],
    "B".data⟩,
   ⟨"q2".data, ["A) one".data, "B) two".data, "C) three".data, "D) four".data],
    "D".data⟩]

theorem C6_witness :
    parse_mcqs (formatQuestions C6sample) =
      Except.ok (C6sample.map SourceQuestion.toDict) ∧
    (C6sample.map SourceQuestion.toDict).length = C6sample.length :=
  C6_parse_roundtrip C6sample (by decide)
